import Mathlib

/-!
Verification development for the dependency-analyzer tool (src/main.rs).

The development shallowly embeds the analyzer's core pipeline:

* the string manipulation primitives the Rust code uses from the standard
  library (char-set splitting, substring search, substring replacement,
  trimming), modelled over lists of characters;
* the parts of the external semver crate the analyzer depends on
  (strict version parsing, version-requirement parsing after pip-style
  normalization, their display forms and version ordering);
* the analyzer itself: the dependency registry, the graph builder with
  hardcoded implied edges, the five manifest extraction strategies (with
  the external toml/yaml/regex document readers as the modelling boundary:
  each manifest constructor carries the document reader's output), and the
  three-rule conflict engine, all transcribed from src/main.rs.

All definitions are executable; theorems at the end settle the claims.
-/

namespace DepAnalyzer

/-! ## Character-list string primitives

These model the Rust standard-library string operations used by the
analyzer, operating on `List Char` (a `String`'s character data).
-/

/-- Whitespace test used by trimming (models Rust's whitespace trimming
for the ASCII whitespace characters that can occur in manifests). -/
def isWS (c : Char) : Bool :=
  c = ' ' || c = '\t' || c = '\n' || c = '\r'

/-- Drop leading whitespace characters. -/
def dropLeadWS (l : List Char) : List Char :=
  l.dropWhile isWS

/-- Trim whitespace from both ends (models Rust's `str::trim`). -/
def trimL (l : List Char) : List Char :=
  ((l.dropWhile isWS).reverse.dropWhile isWS).reverse

/-- Trim whitespace from both ends of a `String`. -/
def sTrim (s : String) : String :=
  ⟨trimL s.data⟩

/-- Boolean prefix test on character lists. -/
def hasPrefixL : List Char → List Char → Bool
  | [], _ => true
  | _ :: _, [] => false
  | c :: p, d :: l => c = d && hasPrefixL p l

/-- Boolean substring test (models Rust's `str::contains` with a string
pattern; all patterns used by the analyzer are ASCII, for which byte-level
search coincides with character-level search). -/
def hasSubL (pat : List Char) : List Char → Bool
  | [] => hasPrefixL pat []
  | c :: rest => hasPrefixL pat (c :: rest) || hasSubL pat rest

/-- `s.contains pat` on strings. -/
def sContains (s pat : String) : Bool :=
  hasSubL pat.data s.data

/-- Non-overlapping left-to-right substring replacement, recursing on a
fuel bound: every step consumes at least one character, so any fuel at
least the list's length computes the full replacement. -/
def replaceFuel (pat repl : List Char) : Nat → List Char → List Char
  | _, [] => []
  | 0, l => l
  | fuel + 1, c :: rest =>
    if pat ≠ [] ∧ pat.isPrefixOf (c :: rest) then
      repl ++ replaceFuel pat repl fuel (List.drop (pat.length - 1) rest)
    else
      c :: replaceFuel pat repl fuel rest

/-- Non-overlapping left-to-right substring replacement (models Rust's
`str::replace` for a non-empty pattern; the analyzer only replaces
non-empty patterns). -/
def replaceL (pat repl : List Char) (l : List Char) : List Char :=
  replaceFuel pat repl l.length l

/-- `str::replace` on strings. -/
def sReplace (s pat repl : String) : String :=
  ⟨replaceL pat.data repl.data s.data⟩

/-- Split on every character satisfying the predicate, keeping empty
pieces (models Rust's `str::split` with a char-set pattern: the result
always has at least one piece, and adjacent separators produce empty
pieces). -/
def splitOnPredL (p : Char → Bool) : List Char → List (List Char)
  | [] => [[]]
  | c :: rest =>
    if p c then [] :: splitOnPredL p rest
    else
      match splitOnPredL p rest with
      | [] => [[c]]
      | t :: ts => (c :: t) :: ts

/-- Split on a single character. -/
def splitOnCharL (c : Char) (l : List Char) : List (List Char) :=
  splitOnPredL (· = c) l

/-- The piece before the first occurrence of a character together with
the remainder after it, if any (used to model splitting a version string
at its first `-` or `+`). -/
def splitFirstL (c : Char) : List Char → List Char × Option (List Char)
  | [] => ([], none)
  | d :: rest =>
    if d = c then ([], some rest)
    else
      let (pre, post) := splitFirstL c rest
      (d :: pre, post)

/-- Strip all leading and trailing occurrences of one character (models
Rust's `str::trim_matches` with a char pattern). -/
def trimMatchesL (c : Char) (l : List Char) : List Char :=
  ((l.dropWhile (· = c)).reverse.dropWhile (· = c)).reverse

/-- The delimiter set `['=', '>', '<', '~', '!']` the analyzer splits
package specifications on. -/
def isDelim (c : Char) : Bool :=
  c = '=' || c = '>' || c = '<' || c = '~' || c = '!'

/-- Split a string on the analyzer's delimiter set, as strings. -/
def splitDelims (s : String) : List String :=
  (splitOnPredL isDelim s.data).map (⟨·⟩)

/-- Everything before the first delimiter: the package name extracted
from a raw requirement string (`line.split(delims).next()` in the
source, which is always `Some` and yields the piece before the first
delimiter). -/
def firstToken (s : String) : String :=
  ⟨s.data.takeWhile (fun c => !isDelim c)⟩

/-- `content.lines()` from Rust: split on newline characters, drop a
final empty piece produced by a trailing newline, and strip one trailing
carriage return from each line. -/
def linesOf (s : String) : List String :=
  if s.data = [] then []
  else
    let ps := splitOnCharL '\n' s.data
    let ps := if ps.getLast? = some [] then ps.dropLast else ps
    ps.map (fun l => ⟨if l.getLast? = some '\r' then l.dropLast else l⟩)

/-- Join a list of strings with a separator (models `Vec::join`). -/
def joinSep (sep : String) : List String → String
  | [] => ""
  | [x] => x
  | x :: y :: rest => x ++ sep ++ joinSep sep (y :: rest)

/-- Whether a line starts with a given character (models
`str::starts_with(char)`). -/
def startsWithChar (s : String) (c : Char) : Bool :=
  s.data.head? = some c

/-! ## The semver model

The analyzer uses the external semver crate for two things: strict
version parsing (`Version::parse`) and version-requirement parsing and
display (`VersionReq::parse`, `Display`).  The model below follows the
crate's strict grammar: a version is `major.minor.patch` with optional
`-pre` and `+build` identifier lists; a requirement is a comma-separated
list of comparators, each an optional operator followed by a partial
version, with the whole-input wildcard `*` denoting the empty comparator
list.  Numeric components reject leading zeros; identifiers are
alphanumeric-or-hyphen.  Precedence ordering compares the numeric triple,
then pre-release (absence ranks higher), with build metadata as a final
tiebreak so the order is total on the representation.
-/

/-- Digits of a decimal numeral to a natural number. -/
def natOfDigits (l : List Char) : Nat :=
  l.foldl (fun a c => a * 10 + (c.toNat - 48)) 0

/-- Parse a numeric component: non-empty, all digits, no leading zero
(unless the component is exactly `0`). -/
def parseNumComponent (l : List Char) : Option Nat :=
  if l = [] then none
  else if !l.all (·.isDigit) then none
  else if l.length > 1 && l.head? = some '0' then none
  else some (natOfDigits l)

/-- A valid identifier character for pre-release/build identifiers. -/
def isIdentChar (c : Char) : Bool :=
  c.isAlphanum || c = '-'

/-- Parse one pre-release/build identifier: non-empty, identifier
characters only; when `strict` (pre-release), an all-digit identifier may
not have a leading zero. -/
def parseIdent (strict : Bool) (l : List Char) : Option String :=
  if l = [] then none
  else if !l.all isIdentChar then none
  else if strict && l.all (·.isDigit) && l.length > 1 && l.head? = some '0' then none
  else some ⟨l⟩

/-- Parse a dot-separated identifier list. -/
def parseIdents (strict : Bool) (l : List Char) : Option (List String) :=
  (splitOnCharL '.' l).mapM (parseIdent strict)

/-- A parsed semver version (`semver::Version`). -/
structure SemVersion where
  major : Nat
  minor : Nat
  patch : Nat
  pre : List String
  build : List String
deriving DecidableEq, Repr

/-- `semver::Version::parse`: the strict `major.minor.patch[-pre][+build]`
grammar. -/
def versionParse (s : String) : Option SemVersion :=
  let (vpart, build?) := splitFirstL '+' s.data
  let (core, pre?) := splitFirstL '-' vpart
  match splitOnCharL '.' core with
  | [ma, mi, pa] =>
    match parseNumComponent ma, parseNumComponent mi, parseNumComponent pa with
    | some major, some minor, some patch =>
      let preIds := match pre? with
        | none => some []
        | some p => parseIdents true p
      let buildIds := match build? with
        | none => some []
        | some b => parseIdents false b
      match preIds, buildIds with
      | some pre, some build => some ⟨major, minor, patch, pre, build⟩
      | _, _ => none
    | _, _, _ => none
  | _ => none

/-- Lexicographic comparison of character lists. -/
def charsCompare : List Char → List Char → Ordering
  | [], [] => .eq
  | [], _ :: _ => .lt
  | _ :: _, [] => .gt
  | a :: as_, b :: bs =>
    match compare a b with
    | .eq => charsCompare as_ bs
    | o => o

/-- Compare two pre-release/build identifiers: numeric identifiers
compare numerically and rank below alphanumeric ones, which compare
lexically. -/
def identCompare (a b : String) : Ordering :=
  match a.data.all (·.isDigit), b.data.all (·.isDigit) with
  | true, true => compare (natOfDigits a.data) (natOfDigits b.data)
  | true, false => .lt
  | false, true => .gt
  | false, false => charsCompare a.data b.data

/-- Compare identifier lists element-wise; a strict prefix ranks lower. -/
def identsCompare : List String → List String → Ordering
  | [], [] => .eq
  | [], _ :: _ => .lt
  | _ :: _, [] => .gt
  | a :: as_, b :: bs =>
    match identCompare a b with
    | .eq => identsCompare as_ bs
    | o => o

/-- Pre-release comparison: an absent pre-release ranks above any
present one. -/
def preCompare (a b : List String) : Ordering :=
  match a, b with
  | [], [] => .eq
  | [], _ :: _ => .gt
  | _ :: _, [] => .lt
  | _, _ => identsCompare a b

/-- Version precedence with build metadata as final tiebreak
(`semver::Version`'s total order). -/
def versionCompare (u v : SemVersion) : Ordering :=
  match compare u.major v.major with
  | .eq =>
    match compare u.minor v.minor with
    | .eq =>
      match compare u.patch v.patch with
      | .eq =>
        match preCompare u.pre v.pre with
        | .eq => identsCompare u.build v.build
        | o => o
      | o => o
    | o => o
  | o => o

/-- `Iterator::max` over versions: the running maximum, keeping the
later element on ties. -/
def maxVersion (l : List SemVersion) : Option SemVersion :=
  l.foldl
    (fun acc v =>
      match acc with
      | none => some v
      | some a => if versionCompare a v = .gt then some a else some v)
    none

/-- Display form of a version: `major.minor.patch[-pre][+build]`. -/
def versionToString (v : SemVersion) : String :=
  toString v.major ++ "." ++ toString v.minor ++ "." ++ toString v.patch
    ++ (if v.pre = [] then "" else "-" ++ joinSep "." v.pre)
    ++ (if v.build = [] then "" else "+" ++ joinSep "." v.build)

/-- Comparator operators of `semver::Op`. -/
inductive ReqOp where
  | exactOp | greaterOp | greaterEqOp | lessOp | lessEqOp | tildeOp | caretOp | wildcardOp
deriving DecidableEq, Repr

/-- One comparator of a version requirement (`semver::Comparator`): an
operator and a partial version.  Build metadata is accepted by the
grammar but not retained, as in the crate. -/
structure Comparator where
  op : ReqOp
  major : Nat
  minor : Option Nat
  patch : Option Nat
  pre : List String
deriving DecidableEq, Repr

/-- A parsed version requirement (`semver::VersionReq`): a list of
comparators; the empty list is the full wildcard `*`. -/
structure VersionReq where
  comparators : List Comparator
deriving DecidableEq, Repr

/-- A wildcard component character in a requirement. -/
def isWildChar (c : Char) : Bool :=
  c = '*' || c = 'x' || c = 'X'

/-- A component piece that is exactly one wildcard character. -/
def isWildPiece : List Char → Bool
  | [c] => isWildChar c
  | _ => false

/-- Parse the leading operator of a comparator; no operator defaults to
caret, as in the crate. -/
def parseReqOp (l : List Char) : ReqOp × Bool × List Char :=
  match l with
  | '>' :: '=' :: rest => (.greaterEqOp, false, rest)
  | '<' :: '=' :: rest => (.lessEqOp, false, rest)
  | '>' :: rest => (.greaterOp, false, rest)
  | '<' :: rest => (.lessOp, false, rest)
  | '=' :: rest => (.exactOp, false, rest)
  | '~' :: rest => (.tildeOp, false, rest)
  | '^' :: rest => (.caretOp, false, rest)
  | rest => (.caretOp, true, rest)

/-- Parse the version part of one comparator, given the operator and
whether it was defaulted.  A wildcard is accepted in the minor or patch
position only for a defaulted operator, turning the comparator into a
wildcard comparator, as in the crate. -/
def parseCompVersion (op : ReqOp) (defaulted : Bool) (l : List Char) : Option Comparator :=
  let (vpart, build?) := splitFirstL '+' l
  let (core, pre?) := splitFirstL '-' vpart
  let buildOk := match build? with
    | none => true
    | some b => (parseIdents false b).isSome
  if !buildOk then none
  else
    match splitOnCharL '.' core with
    | [ma] =>
      match parseNumComponent ma, pre? with
      | some major, none => some ⟨op, major, none, none, []⟩
      | _, _ => none
    | [ma, mi] =>
      match parseNumComponent ma, pre? with
      | some major, none =>
        if isWildPiece mi then
          if defaulted then some ⟨.wildcardOp, major, none, none, []⟩ else none
        else
          match parseNumComponent mi with
          | some minor => some ⟨op, major, some minor, none, []⟩
          | none => none
      | _, _ => none
    | [ma, mi, pa] =>
      match parseNumComponent ma with
      | some major =>
        if isWildPiece mi then
          if defaulted && pre?.isNone && isWildPiece pa then
            some ⟨.wildcardOp, major, none, none, []⟩
          else none
        else
          match parseNumComponent mi with
          | some minor =>
            if isWildPiece pa then
              if defaulted && pre?.isNone then
                some ⟨.wildcardOp, major, some minor, none, []⟩
              else none
            else
              match parseNumComponent pa, (match pre? with | none => some [] | some p => parseIdents true p) with
              | some patch, some pre => some ⟨op, major, some minor, some patch, pre⟩
              | _, _ => none
          | none => none
      | none => none
    | _ => none

/-- Parse one comma-separated comparator piece: optional spaces, an
operator, optional spaces, a version part. -/
def parseComparator (piece : List Char) : Option Comparator :=
  let t := trimL piece
  let (op, defaulted, rest) := parseReqOp t
  parseCompVersion op defaulted (dropLeadWS rest)

/-- `semver::VersionReq::parse`: a lone wildcard is the empty comparator
list; otherwise every comma-separated piece must parse as a comparator. -/
def reqParse (s : String) : Option VersionReq :=
  let t := trimL s.data
  if t = ['*'] || t = ['x'] || t = ['X'] then some ⟨[]⟩
  else
    match (splitOnCharL ',' s.data).mapM parseComparator with
    | some comps => some ⟨comps⟩
    | none => none

/-- Display form of one comparator. -/
def compToString (c : Comparator) : String :=
  match c.op with
  | .wildcardOp =>
    match c.minor with
    | none => toString c.major ++ ".*"
    | some mi => toString c.major ++ "." ++ toString mi ++ ".*"
  | op =>
    let opStr : String :=
      match op with
      | .exactOp => "="
      | .greaterOp => ">"
      | .greaterEqOp => ">="
      | .lessOp => "<"
      | .lessEqOp => "<="
      | .tildeOp => "~"
      | .caretOp => "^"
      | .wildcardOp => ""
    opStr ++ toString c.major
      ++ (match c.minor with
          | none => ""
          | some mi =>
            "." ++ toString mi
              ++ (match c.patch with
                  | none => ""
                  | some pa =>
                    "." ++ toString pa
                      ++ (if c.pre = [] then "" else "-" ++ joinSep "." c.pre)))

/-- Display form of a version requirement (`Display for VersionReq`). -/
def reqToString (r : VersionReq) : String :=
  match r.comparators with
  | [] => "*"
  | comps => joinSep ", " (comps.map compToString)

/-! ## The dependency model and registry -/

/-- One dependency record (struct `Dependency` in the source).
`resolved_version` is always absent at parse time. -/
structure Dependency where
  name : String
  version_spec : String
  version_req : Option VersionReq
  resolved_version : Option SemVersion
  source_file : String
deriving DecidableEq, Repr

/-- The registry: package name mapped to all records seen for it, as an
association list in insertion order (the `HashMap<String, Vec<Dependency>>`
field `dependencies`; the association list fixes one iteration order,
which the `HashMap` leaves unspecified). -/
abbrev Registry := List (String × List Dependency)

/-- Look up the record bucket for a package name. -/
def lookupDeps (R : Registry) (k : String) : Option (List Dependency) :=
  match R with
  | [] => none
  | (k', ds) :: rest => if k' = k then some ds else lookupDeps rest k

/-- `HashMap::contains_key`. -/
def hasKey (R : Registry) (k : String) : Bool :=
  (lookupDeps R k).isSome

/-- Append a record to its bucket, creating the bucket at the end if the
key is new (`entry(name).or_insert_with(Vec::new).push(dep)`). -/
def bucketPush : Registry → String → Dependency → Registry
  | [], k, d => [(k, [d])]
  | (k', ds) :: rest, k, d =>
    if k' = k then (k', ds ++ [d]) :: rest
    else (k', ds) :: bucketPush rest k d

/-- `deps[0]` on a registry bucket.  Buckets are never empty in states
built by the pipeline; the default only defines the function totally. -/
def firstDep (deps : List Dependency) : Dependency :=
  deps.headD ⟨"", "", none, none, ""⟩

/-- The analyzer state (`struct DependencyAnalyzer`): the registry plus
the dependency graph, with the graph's nodes kept as the list of package
names in creation order and its edges as name pairs.  The static
`known_conflicts` table is the separate constant `knownConflicts`. -/
structure DependencyAnalyzer where
  dependencies : Registry
  nodes : List String
  edges : List (String × String)
deriving DecidableEq

/-- The empty analyzer produced by `DependencyAnalyzer::new`. -/
def initState : DependencyAnalyzer :=
  { dependencies := [], nodes := [], edges := [] }

/-- The static known-conflict knowledge base built in
`DependencyAnalyzer::new`, as an association list of sets-as-lists in
insertion order. -/
def knownConflicts : List (String × List String) :=
  [ ("tensorflow", ["torch", "jax"])
  , ("torch", ["tensorflow", "jax"])
  , ("numpy", ["pandas<1.0.0"]) ]

/-- The hardcoded implied dependencies a well-known package's node gets
edges to on first sighting (the `match name.as_str()` table in
`add_dependency`). -/
def impliedTargets (name : String) : List String :=
  if name = "pandas" then ["numpy"]
  else if name = "scikit-learn" then ["numpy"]
  else if name = "tensorflow" then ["numpy"]
  else if name = "transformers" then ["torch", "tensorflow"]
  else []

/-- The edges created at a first sighting: one edge per implied target
whose node already exists. -/
def newEdges (st : DependencyAnalyzer) (dep : Dependency) : List (String × String) :=
  ((impliedTargets dep.name).filter (fun t => st.nodes.contains t)).map (fun t => (dep.name, t))

/-- `add_dependency`: push the record into its registry bucket; on first
sighting of the name also create its graph node and add an edge to each
hardcoded implied dependency whose node already exists. -/
def add_dependency (st : DependencyAnalyzer) (dep : Dependency) : DependencyAnalyzer :=
  let deps' := bucketPush st.dependencies dep.name dep
  if st.nodes.contains dep.name then
    { st with dependencies := deps' }
  else
    { dependencies := deps'
      nodes := st.nodes ++ [dep.name]
      edges := st.edges ++ newEdges st dep }

/-- Process a list of records in discovery order. -/
def scanFold (st : DependencyAnalyzer) (l : List Dependency) : DependencyAnalyzer :=
  l.foldl add_dependency st

/-! ## Manifest parsing -/

/-- `parse_version_spec`: pip-style specs are normalized by token
substitution (the first two substitutions in the source are identities)
and then parsed as a version requirement; a parse failure yields no
structured constraint. -/
def parse_version_spec (spec : String) : Option VersionReq :=
  reqParse (sReplace (sReplace (sReplace (sReplace spec ">=" ">=") "<=" "<=") "==" "=") "~=" "~")

/-- Build the record for one raw requirement string: the name is the
trimmed piece before the first delimiter, the spec is kept verbatim, and
the structured constraint comes from `parse_version_spec` (shared shape
of the record construction in `parse_requirements`, `parse_setup_py`,
`parse_pyproject_toml` and `parse_conda_yml`). -/
def mkDep (path rawSpec : String) : Dependency :=
  { name := sTrim (firstToken rawSpec)
    version_spec := rawSpec
    version_req := parse_version_spec rawSpec
    resolved_version := none
    source_file := path }

/-- The lines of a requirements file that produce records: trimmed,
non-empty, not comments. -/
def requirementLines (content : String) : List String :=
  ((linesOf content).map sTrim).filter (fun l => !(l = "" || startsWithChar l '#'))

/-- `parse_requirements`: one record per kept line. -/
def parse_requirements (path content : String) : List Dependency :=
  (requirementLines content).map (mkDep path)

/-- The comma-separated entries of a captured `install_requires` list
body: trimmed, stripped of single then double quotes, empties skipped
(`parse_setup_py`'s per-entry handling). -/
def setupEntries (body : String) : List String :=
  (((splitOnCharL ',' body.data).map
      (fun p => trimMatchesL '\"' (trimMatchesL (Char.ofNat 39) (trimL p)))).filter
    (· ≠ [])).map (⟨·⟩)

/-- A manifest file, with the external document readers as the modelling
boundary: the requirements format is embedded in full from its text; for
the other four formats the constructor carries the output of the external
reader that the source consumes (the regex capture of the
`install_requires` list body for a setup script; the string-scalar-or-not
values of the `packages` table of a Pipfile; the string entries of the
`project.dependencies` array of a pyproject file; the string entries of
the top-level `dependencies` sequence of a conda environment file). -/
inductive ManifestFile where
  | requirementsTxt (path content : String)
  | setupPy (path : String) (installRequires : Option String)
  | pipfile (path : String) (packages : List (String × Option String))
  | pyprojectToml (path : String) (dependencies : List (Option String))
  | condaYml (path : String) (dependencies : List (Option String))

/-- The records one manifest file contributes, in order (`parse_requirements`,
`parse_setup_py`, `parse_pipfile`, `parse_pyproject_toml`, `parse_conda_yml`).
A Pipfile entry's name is the table key verbatim and a non-string value
becomes the wildcard spec; the array-based formats skip non-string
entries. -/
def fileDeps : ManifestFile → List Dependency
  | .requirementsTxt path content => parse_requirements path content
  | .setupPy path cap =>
    match cap with
    | none => []
    | some body => (setupEntries body).map (mkDep path)
  | .pipfile path pkgs =>
    pkgs.map (fun e =>
      let spec := e.2.getD "*"
      { name := e.1
        version_spec := spec
        version_req := parse_version_spec spec
        resolved_version := none
        source_file := path })
  | .pyprojectToml path ds => ds.filterMap (fun o => o.map (mkDep path))
  | .condaYml path ds => ds.filterMap (fun o => o.map (mkDep path))

/-- `scan_project`: process every discovered manifest's records in
order. -/
def scan_project (files : List ManifestFile) : DependencyAnalyzer :=
  scanFold initState (files.flatMap fileDeps)

/-! ## The conflict engine (`check_conflicts`) -/

/-- The `"{} (in {})"` rendering of one record in a rule-1 finding. -/
def versionEntry (d : Dependency) : String :=
  d.version_spec ++ " (in " ++ d.source_file ++ ")"

/-- The versions extractable from a bucket's specs: the second token of
each spec under the delimiter split, trimmed and parsed as a strict
version. -/
def specVersions (deps : List Dependency) : List SemVersion :=
  deps.filterMap (fun d => ((splitDelims d.version_spec).get? 1).bind (fun t => versionParse (sTrim t)))

/-- The highest required version among a bucket's parseable specs. -/
def highestVersion (deps : List Dependency) : Option SemVersion :=
  maxVersion (specVersions deps)

/-- The rule-1 suggestion text: present exactly when some spec yields a
parseable version. -/
def rule1Suggestion (deps : List Dependency) : String :=
  match highestVersion deps with
  | some v =>
    "\n      Suggestion: Use version >=" ++ versionToString v ++ " to satisfy all requirements"
  | none => ""

/-- A rule-1 finding without its suggestion part. -/
def mkRule1Base (name : String) (deps : List Dependency) : String :=
  "Multiple version requirements for " ++ (name ++ (": " ++ joinSep ", " (deps.map versionEntry)))

/-- A complete rule-1 finding. -/
def mkRule1 (name : String) (deps : List Dependency) : String :=
  mkRule1Base name deps ++ rule1Suggestion deps

/-- The rule-1 contribution of one registry entry: one finding when the
bucket has more than one record, nothing otherwise. -/
def rule1For (e : String × List Dependency) : Option String :=
  if e.2.length > 1 then some (mkRule1 e.1 e.2) else none

/-- All rule-1 (multiple version requirements) findings. -/
def rule1Findings (R : Registry) : List String :=
  R.filterMap rule1For

/-- The bare lookup name of a knowledge-base identifier:
`conflict_pkg.split(ch).next()` with the qualifier character, i.e. the
part before the first `<`. -/
def bareConflictName (s : String) : String :=
  ⟨s.data.takeWhile (· ≠ '<')⟩

/-- A rule-2 finding naming the keyed package, the knowledge-base
identifier, and the first record's spec of each side. -/
def mkRule2 (pkg spec1 cpkg spec2 : String) : String :=
  "Known conflict: " ++ (pkg ++ (" " ++ (spec1 ++ (" may conflict with " ++ (cpkg ++ (" " ++ (spec2 ++
    ".\n      Suggestion: Consider using only one of these packages, or ensure they are compatible versions")))))))

/-- All rule-2 (known-pair) findings: for every knowledge-base entry
whose package has a bucket, one finding per identifier whose bare name
also has a bucket. -/
def rule2Findings (R : Registry) : List String :=
  knownConflicts.flatMap (fun e =>
    match lookupDeps R e.1 with
    | none => []
    | some deps =>
      e.2.filterMap (fun cpkg =>
        match lookupDeps R (bareConflictName cpkg) with
        | none => none
        | some cdeps =>
          some (mkRule2 e.1 (firstDep deps).version_spec cpkg (firstDep cdeps).version_spec)))

/-- The rule-3 numpy-too-old warning. -/
def numpyWarning (spec : String) : String :=
  "Warning: numpy " ++ (spec ++
    " might be too old for modern ML frameworks.\n      Suggestion: Use numpy>=1.19.2 for better compatibility")

/-- The rule-3 tensorflow/numpy compatibility warning. -/
def tensorflowWarning (spec : String) : String :=
  "Potential conflict: tensorflow " ++ (spec ++
    " requires numpy>=1.19.2.\n      Suggestion: Upgrade numpy to version >=1.19.2")

/-- The rule-3 transformers dual-backend warning. -/
def transformersWarning : String :=
  "Warning: transformers is being used with both tensorflow and torch.\n      Suggestion: Consider using only one backend for better efficiency"

/-- The rule-3 contribution of one registry entry.  Every branch is
reachable only when the entry's first record exists and carries a
successfully parsed structured constraint. -/
def rule3For (R : Registry) (e : String × List Dependency) : List String :=
  match e.2.head? with
  | none => []
  | some dep =>
    match dep.version_req with
    | none => []
    | some vr =>
      if e.1 = "numpy" then
        if sContains (reqToString vr) "<1.19" then [numpyWarning dep.version_spec] else []
      else if e.1 = "tensorflow" then
        match lookupDeps R "numpy" with
        | none => []
        | some ndeps =>
          match ndeps.head? with
          | none => []
          | some nd =>
            if sContains nd.version_spec "<1.19" then [tensorflowWarning dep.version_spec] else []
      else if e.1 = "transformers" then
        if hasKey R "tensorflow" && hasKey R "torch" then [transformersWarning] else []
      else []

/-- All rule-3 (heuristic compatibility) findings. -/
def rule3Findings (R : Registry) : List String :=
  R.flatMap (rule3For R)

/-- `check_conflicts`: the three rule classes' findings, concatenated in
the order the source pushes them. -/
def check_conflicts (R : Registry) : List String :=
  rule1Findings R ++ rule2Findings R ++ rule3Findings R

/-- The full pipeline on a fixed sequence of manifest files: scan, then
evaluate the conflict engine on the finished registry. -/
def runPipeline (files : List ManifestFile) : DependencyAnalyzer × List String :=
  let st := scan_project files
  (st, check_conflicts st.dependencies)

/-! ## Specification-side definitions used to state the claims -/

/-- The record `d` is the first sighting of the package name `s` in the
scanned record sequence `l`, and the implied target `t`'s node already
existed at that moment: the condition under which the specification says
an implied edge `s → t` exists. -/
def sightingAt (l : List Dependency) (s t : String) : Prop :=
  ∃ l₁ d l₂, l = l₁ ++ d :: l₂ ∧ d.name = s ∧ s ∉ l₁.map Dependency.name ∧
    t ∈ impliedTargets s ∧ t ∈ (scanFold initState l₁).nodes

/-- The `(package, identifier)` pairs for which the specification says
the known-pair check emits exactly one finding: knowledge-base entries
whose package is a registry key, paired with each identifier of their
incompatible set whose bare name is also a registry key. -/
def qualifyingPairs (R : Registry) : List (String × String) :=
  knownConflicts.flatMap (fun e =>
    if hasKey R e.1 then
      (e.2.filter (fun c => hasKey R (bareConflictName c))).map (fun c => (e.1, c))
    else [])

/-- The version spec of the first record of a package's bucket. -/
def firstSpec (R : Registry) (k : String) : String :=
  (firstDep ((lookupDeps R k).getD [])).version_spec

/-- The scan state for a requirements file declaring `numpy<1.19.2` and
`tensorflow>=2.0` — the input of the specification's heuristic-check
property. -/
def c1State : DependencyAnalyzer :=
  scan_project [ManifestFile.requirementsTxt "requirements.txt" "numpy<1.19.2\ntensorflow>=2.0"]

/-- A record with the given name and spec and no parsed constraint. -/
def rawRec (name spec : String) : Dependency :=
  ⟨name, spec, none, none, "requirements.txt"⟩

/-- A registry declaring transformers, tensorflow and torch where no
first record carries a parsed constraint (exactly what the pipeline
produces for bare requirement lines, whose specs never parse as version
requirements). -/
def c2Registry : Registry :=
  [ ("transformers", [rawRec "transformers" "transformers"])
  , ("tensorflow", [rawRec "tensorflow" "tensorflow"])
  , ("torch", [rawRec "torch" "torch"]) ]

/-- The `c2Registry` with the transformers record carrying a parsed
wildcard constraint (what a Pipfile `transformers = "*"` entry
produces). -/
def c2Registry' : Registry :=
  [ ("transformers", [⟨"transformers", "*", some ⟨[]⟩, none, "Pipfile"⟩])
  , ("tensorflow", [rawRec "tensorflow" "tensorflow"])
  , ("torch", [rawRec "torch" "torch"]) ]

/-- A record sequence sighting numpy before pandas, so the implied
pandas → numpy edge is created. -/
def c4List : List Dependency :=
  [rawRec "numpy" "numpy>=1.19", rawRec "pandas" "pandas>=1.0"]

/-- A registry declaring both tensorflow and torch. -/
def c10Registry : Registry :=
  [ ("tensorflow", [rawRec "tensorflow" "tensorflow>=2.0"])
  , ("torch", [rawRec "torch" "torch"]) ]

/-! ## Helper lemmas about the string primitives -/

theorem hasPrefixL_iff (p l : List Char) : hasPrefixL p l = true ↔ p <+: l := by
  induction p generalizing l with
  | nil => simp [hasPrefixL]
  | cons c p ih =>
    cases l with
    | nil => simp [hasPrefixL]
    | cons d l =>
      simp [hasPrefixL, List.cons_prefix_cons, ih, and_comm]

theorem hasSubL_iff (p l : List Char) : hasSubL p l = true ↔ p <:+: l := by
  induction l with
  | nil => simp [hasSubL, hasPrefixL_iff, List.infix_nil, List.prefix_nil]
  | cons c l ih =>
    simp [hasSubL, hasPrefixL_iff, ih, List.infix_cons_iff]

theorem sContains_of_infix {s pat : String} (h : pat.data <:+: s.data) :
    sContains s pat = true := by
  simpa [sContains, hasSubL_iff] using h

theorem replaceFuel_self (pat : List Char) (fuel : Nat) (l : List Char) :
    replaceFuel pat pat fuel l = l := by
  induction fuel generalizing l with
  | zero => cases l <;> rfl
  | succ fuel ih =>
    cases l with
    | nil => rfl
    | cons c rest =>
      by_cases h : pat ≠ [] ∧ pat.isPrefixOf (c :: rest)
      · obtain ⟨hne, hpre⟩ := h
        obtain ⟨t, ht⟩ := (List.isPrefixOf_iff_prefix).mp hpre
        obtain ⟨k, hk⟩ : ∃ k, pat.length = k + 1 := by
          cases hl : pat.length with
          | zero => exact absurd (List.length_eq_zero.mp hl) hne
          | succ k => exact ⟨k, rfl⟩
        have hdrop : List.drop (pat.length - 1) rest = t := by
          have h1 : List.drop pat.length (c :: rest) = t := by
            rw [← ht, List.drop_left]
          rw [hk] at h1 ⊢
          simpa [List.drop_succ_cons] using h1
        rw [replaceFuel, if_pos ⟨hne, hpre⟩, hdrop, ih, ht]
      · rw [replaceFuel, if_neg h, ih]

theorem replaceL_self (pat : List Char) (l : List Char) : replaceL pat pat l = l :=
  replaceFuel_self pat l.length l

theorem sReplace_self (s p : String) : sReplace s p p = s := by
  simp [sReplace, replaceL_self]

theorem data_mk (l : List Char) : (⟨l⟩ : String).data = l := rfl

theorem take_data_append (s t : String) (n : Nat) (h : n ≤ s.data.length) :
    (s ++ t).data.take n = s.data.take n := by
  simp [String.data_append, List.take_append_eq_append_take]
  exact Or.inl (Nat.sub_eq_zero_of_le h)

theorem ne_of_data_take {s t : String} {n : Nat}
    (h : s.data.take n ≠ t.data.take n) : s ≠ t := by
  intro he
  exact h (by rw [he])

theorem mem_joinSep_infix (sep : String) (l : List String) (x : String) (h : x ∈ l) :
    x.data <:+: (joinSep sep l).data := by
  induction l with
  | nil => cases h
  | cons y ys ih =>
    cases ys with
    | nil =>
      have hx : x = y := by simpa using h
      subst hx
      exact List.infix_refl _
    | cons z zs =>
      rcases List.mem_cons.mp h with h | h
      · subst h
        show x.data <:+: (x ++ sep ++ joinSep sep (z :: zs)).data
        rw [String.data_append, String.data_append]
        exact ((List.prefix_append x.data sep.data).trans
          (List.prefix_append _ _)).isInfix
      · have hin := ih h
        show x.data <:+: (y ++ sep ++ joinSep sep (z :: zs)).data
        rw [String.data_append]
        exact hin.trans (List.suffix_append _ _).isInfix

theorem infix_data_append_right {x : List Char} (s t : String) (h : x <:+: s.data) :
    x <:+: (s ++ t).data := by
  rw [String.data_append]
  exact h.trans (List.prefix_append _ _).isInfix

theorem infix_data_append_left {x : List Char} (s t : String) (h : x <:+: t.data) :
    x <:+: (s ++ t).data := by
  rw [String.data_append]
  exact h.trans (List.suffix_append _ _).isInfix

/-! ## Helper lemmas about the registry and the scan -/

theorem lookupDeps_some_mem {R : Registry} {k : String} {ds : List Dependency}
    (h : lookupDeps R k = some ds) : (k, ds) ∈ R := by
  induction R with
  | nil => cases h
  | cons e rest ih =>
    obtain ⟨k', ds'⟩ := e
    by_cases hk : k' = k
    · subst hk
      have h' : ds' = ds := by simpa [lookupDeps] using h
      subst h'
      exact List.mem_cons_self _ _
    · simp only [lookupDeps, if_neg hk] at h
      exact List.mem_cons_of_mem _ (ih h)

theorem hasKey_bucketPush (R : Registry) (k : String) (d : Dependency) (x : String) :
    hasKey (bucketPush R k d) x = true ↔ hasKey R x = true ∨ x = k := by
  induction R with
  | nil =>
    by_cases hk : k = x
    · subst hk
      simp [bucketPush, hasKey, lookupDeps]
    · have hx : ¬ x = k := fun h => hk h.symm
      simp [bucketPush, hasKey, lookupDeps, hk, hx]
  | cons e rest ih =>
    obtain ⟨k', ds'⟩ := e
    by_cases hk : k' = k
    · subst hk
      by_cases hx : k' = x
      · subst hx
        simp [bucketPush, hasKey, lookupDeps]
      · have hx' : ¬ x = k' := fun h => hx h.symm
        simp [bucketPush, hasKey, lookupDeps, hx, hx']
    · by_cases hx : k' = x
      · subst hx
        simp [bucketPush, hasKey, lookupDeps, hk]
      · have h1 : hasKey (bucketPush ((k', ds') :: rest) k d) x = hasKey (bucketPush rest k d) x := by
          simp [bucketPush, hasKey, lookupDeps, hk, hx]
        rw [h1, ih]
        simp [hasKey, lookupDeps, hx]

theorem nodes_add_dependency (st : DependencyAnalyzer) (d : Dependency) (x : String) :
    x ∈ (add_dependency st d).nodes ↔ x ∈ st.nodes ∨ x = d.name := by
  by_cases hc : d.name ∈ st.nodes
  · simp only [add_dependency]
    rw [if_pos (by simpa using hc)]
    constructor
    · exact Or.inl
    · rintro (h | rfl)
      · exact h
      · exact hc
  · simp only [add_dependency]
    rw [if_neg (by simpa using hc)]
    simp

theorem hasKey_add_dependency (st : DependencyAnalyzer) (d : Dependency) (x : String) :
    hasKey (add_dependency st d).dependencies x = true ↔
      hasKey st.dependencies x = true ∨ x = d.name := by
  by_cases hc : d.name ∈ st.nodes
  · simp only [add_dependency]
    rw [if_pos (by simpa using hc)]
    exact hasKey_bucketPush _ _ _ _
  · simp only [add_dependency]
    rw [if_neg (by simpa using hc)]
    exact hasKey_bucketPush _ _ _ _

theorem edges_add_dependency (st : DependencyAnalyzer) (d : Dependency) :
    (add_dependency st d).edges =
      if d.name ∈ st.nodes then st.edges else st.edges ++ newEdges st d := by
  by_cases hc : d.name ∈ st.nodes
  · simp only [add_dependency]
    rw [if_pos (by simpa using hc), if_pos hc]
  · simp only [add_dependency]
    rw [if_neg (by simpa using hc), if_neg hc]

theorem scanFold_append (st : DependencyAnalyzer) (l₁ l₂ : List Dependency) :
    scanFold st (l₁ ++ l₂) = scanFold (scanFold st l₁) l₂ :=
  List.foldl_append _ _ _ _

theorem nodes_scanFold (l : List Dependency) (st : DependencyAnalyzer) (x : String) :
    x ∈ (scanFold st l).nodes ↔ x ∈ st.nodes ∨ x ∈ l.map Dependency.name := by
  induction l generalizing st with
  | nil => simp [scanFold]
  | cons d l ih =>
    show x ∈ (scanFold (add_dependency st d) l).nodes ↔ _
    rw [ih, nodes_add_dependency]
    simp [or_assoc, or_comm, or_left_comm]

theorem hasKey_scanFold (l : List Dependency) (st : DependencyAnalyzer) (x : String) :
    hasKey (scanFold st l).dependencies x = true ↔
      hasKey st.dependencies x = true ∨ x ∈ l.map Dependency.name := by
  induction l generalizing st with
  | nil => simp [scanFold]
  | cons d l ih =>
    show hasKey (scanFold (add_dependency st d) l).dependencies x = true ↔ _
    rw [ih, hasKey_add_dependency]
    simp [or_assoc, or_comm, or_left_comm]

theorem mem_newEdges (st : DependencyAnalyzer) (d : Dependency) (s t : String) :
    (s, t) ∈ newEdges st d ↔
      s = d.name ∧ t ∈ impliedTargets d.name ∧ t ∈ st.nodes := by
  simp only [newEdges, List.mem_map, List.mem_filter]
  constructor
  · rintro ⟨u, ⟨hu, hc⟩, he⟩
    obtain ⟨he1, he2⟩ := Prod.mk.injEq .. ▸ he
    subst he1
    subst he2
    exact ⟨rfl, hu, List.elem_iff.mp hc⟩
  · rintro ⟨rfl, hu, hc⟩
    exact ⟨t, ⟨hu, List.elem_iff.mpr hc⟩, rfl⟩

theorem sightingAt_nil (s t : String) : ¬ sightingAt [] s t := by
  rintro ⟨l₁, d, l₂, heq, -⟩
  exact List.cons_ne_nil d l₂ (List.append_eq_nil.mp heq.symm).2

theorem sightingAt_append_single (l : List Dependency) (d : Dependency) (s t : String) :
    sightingAt (l ++ [d]) s t ↔
      sightingAt l s t ∨
        (d.name = s ∧ s ∉ l.map Dependency.name ∧ t ∈ impliedTargets s ∧
          t ∈ (scanFold initState l).nodes) := by
  constructor
  · rintro ⟨l₁, x, l₂, heq, hname, hnotin, htgt, hnode⟩
    rcases l₂.eq_nil_or_concat with rfl | ⟨L, b, rfl⟩
    · have h2 : l ++ [d] = l₁ ++ [x] := heq
      have hrev := congrArg List.reverse h2
      simp only [List.reverse_append, List.reverse_cons, List.reverse_nil,
        List.nil_append, List.cons_append, List.cons.injEq] at hrev
      obtain ⟨rfl, hli⟩ := hrev
      have hl : l = l₁ := by simpa using congrArg List.reverse hli
      subst hl
      exact Or.inr ⟨hname, hnotin, htgt, hnode⟩
    · have h2 : l ++ [d] = (l₁ ++ x :: L) ++ [b] := by
        rw [heq]
        simp [List.concat_eq_append]
      have hrev := congrArg List.reverse h2
      simp only [List.reverse_append, List.reverse_cons, List.reverse_nil,
        List.nil_append, List.cons_append, List.cons.injEq] at hrev
      obtain ⟨rfl, hli⟩ := hrev
      have hl : l = l₁ ++ x :: L := by simpa using congrArg List.reverse hli
      exact Or.inl ⟨l₁, x, L, hl, hname, hnotin, htgt, hnode⟩
  · rintro (⟨l₁, x, l₂, rfl, hname, hnotin, htgt, hnode⟩ | ⟨hname, hnotin, htgt, hnode⟩)
    · exact ⟨l₁, x, l₂ ++ [d], by simp, hname, hnotin, htgt, hnode⟩
    · exact ⟨l, d, [], by simp, hname, hnotin, htgt, hnode⟩

theorem edges_scanFold_iff (l : List Dependency) (s t : String) :
    (s, t) ∈ (scanFold initState l).edges ↔ sightingAt l s t := by
  induction l using List.reverseRecOn with
  | nil =>
    constructor
    · intro h
      exact absurd h (List.not_mem_nil _)
    · exact fun h => absurd h (sightingAt_nil s t)
  | append_singleton l d ih =>
    rw [scanFold_append, sightingAt_append_single]
    show (s, t) ∈ (add_dependency (scanFold initState l) d).edges ↔ _
    rw [edges_add_dependency]
    have hnames : d.name ∈ (scanFold initState l).nodes ↔ d.name ∈ l.map Dependency.name := by
      rw [nodes_scanFold]
      simp [initState]
    by_cases hc : d.name ∈ (scanFold initState l).nodes
    · rw [if_pos hc, ih]
      have hmem : d.name ∈ l.map Dependency.name := hnames.mp hc
      constructor
      · exact Or.inl
      · rintro (h | ⟨rfl, hnotin, -⟩)
        · exact h
        · exact absurd hmem hnotin
    · rw [if_neg hc, List.mem_append, ih, mem_newEdges]
      have hnotmem : d.name ∉ l.map Dependency.name := fun hmem => hc (hnames.mpr hmem)
      constructor
      · rintro (h | ⟨rfl, htgt, hnode⟩)
        · exact Or.inl h
        · exact Or.inr ⟨rfl, hnotmem, htgt, hnode⟩
      · rintro (h | ⟨rfl, hnotin, htgt, hnode⟩)
        · exact Or.inl h
        · exact Or.inr ⟨rfl, htgt, hnode⟩

/-! ## Shape lemmas about the findings

Each rule class produces findings with a distinct literal prefix, so the
first ten characters identify the producing branch whatever the embedded
package names and specs are. -/

theorem take10_mkRule1 (name : String) (deps : List Dependency) :
    (mkRule1 name deps).data.take 10 = ("Multiple v" : String).data := by
  have hlen : (10 : Nat) ≤ (mkRule1Base name deps).data.length := by
    have h34 : ("Multiple version requirements for " : String).data.length = 34 := by decide
    unfold mkRule1Base
    rw [String.data_append, List.length_append, h34]
    omega
  rw [mkRule1, take_data_append _ _ 10 hlen]
  rw [mkRule1Base, take_data_append _ _ 10 (by decide)]
  decide

theorem take10_mkRule2 (p s1 c s2 : String) :
    (mkRule2 p s1 c s2).data.take 10 = ("Known conf" : String).data := by
  rw [mkRule2, take_data_append _ _ 10 (by decide)]
  decide

theorem take10_numpyWarning (spec : String) :
    (numpyWarning spec).data.take 10 = ("Warning: n" : String).data := by
  rw [numpyWarning, take_data_append _ _ 10 (by decide)]
  decide

theorem take10_tensorflowWarning (spec : String) :
    (tensorflowWarning spec).data.take 10 = ("Potential " : String).data := by
  rw [tensorflowWarning, take_data_append _ _ 10 (by decide)]
  decide

theorem take10_transformersWarning :
    transformersWarning.data.take 10 = ("Warning: t" : String).data := by decide

theorem rule1For_eq_some {e : String × List Dependency} {f : String}
    (h : rule1For e = some f) : f = mkRule1 e.1 e.2 ∧ e.2.length > 1 := by
  unfold rule1For at h
  by_cases hl : e.2.length > 1
  · rw [if_pos hl] at h
    exact ⟨(Option.some.injEq .. ▸ h).symm, hl⟩
  · rw [if_neg hl] at h
    cases h

theorem mem_rule2_shape {R : Registry} {f : String} (h : f ∈ rule2Findings R) :
    ∃ p s1 c s2, f = mkRule2 p s1 c s2 := by
  unfold rule2Findings at h
  rw [List.mem_flatMap] at h
  obtain ⟨e, -, hf⟩ := h
  cases hl : lookupDeps R e.1 with
  | none => rw [hl] at hf; cases hf
  | some deps =>
    rw [hl] at hf
    rw [List.mem_filterMap] at hf
    obtain ⟨c, -, hc⟩ := hf
    cases hl2 : lookupDeps R (bareConflictName c) with
    | none => rw [hl2] at hc; cases hc
    | some cdeps =>
      rw [hl2] at hc
      exact ⟨e.1, (firstDep deps).version_spec, c, (firstDep cdeps).version_spec,
        (Option.some.injEq .. ▸ hc).symm⟩

theorem transformersWarning_not_rule1 (R : Registry) :
    transformersWarning ∉ rule1Findings R := by
  intro h
  rw [rule1Findings, List.mem_filterMap] at h
  obtain ⟨e, -, he⟩ := h
  obtain ⟨hf, -⟩ := rule1For_eq_some he
  have h10 := congrArg (fun l => List.take 10 l) (congrArg String.data hf)
  simp only [take10_mkRule1, take10_transformersWarning] at h10
  exact absurd h10 (by decide)

theorem transformersWarning_not_rule2 (R : Registry) :
    transformersWarning ∉ rule2Findings R := by
  intro h
  obtain ⟨p, s1, c, s2, hf⟩ := mem_rule2_shape h
  have h10 := congrArg (fun l => List.take 10 l) (congrArg String.data hf)
  simp only [take10_mkRule2, take10_transformersWarning] at h10
  exact absurd h10 (by decide)

theorem transformersWarning_mem_rule3For {R : Registry} {e : String × List Dependency}
    (h : transformersWarning ∈ rule3For R e) :
    (hasKey R "tensorflow" && hasKey R "torch") = true := by
  obtain ⟨name, deps⟩ := e
  cases deps with
  | nil => simp [rule3For] at h
  | cons d rest =>
    simp only [rule3For, List.head?_cons] at h
    cases hv : d.version_req with
    | none =>
      simp only [hv] at h
      exact absurd h (List.not_mem_nil _)
    | some vr =>
      simp only [hv] at h
      by_cases hn1 : name = "numpy"
      · rw [if_pos hn1] at h
        by_cases hs : sContains (reqToString vr) "<1.19" = true
        · rw [if_pos hs] at h
          have hf : transformersWarning = numpyWarning d.version_spec := by simpa using h
          have h10 := congrArg (fun l => List.take 10 l) (congrArg String.data hf)
          simp only [take10_numpyWarning, take10_transformersWarning] at h10
          exact absurd h10 (by decide)
        · rw [if_neg hs] at h; cases h
      · rw [if_neg hn1] at h
        by_cases hn2 : name = "tensorflow"
        · rw [if_pos hn2] at h
          cases hl : lookupDeps R "numpy" with
          | none =>
            simp only [hl] at h
            exact absurd h (List.not_mem_nil _)
          | some ndeps =>
            simp only [hl] at h
            cases hnd : ndeps.head? with
            | none =>
              simp only [hnd] at h
              exact absurd h (List.not_mem_nil _)
            | some nd =>
              simp only [hnd] at h
              by_cases hs : sContains nd.version_spec "<1.19" = true
              · rw [if_pos hs] at h
                have hf : transformersWarning = tensorflowWarning d.version_spec := by simpa using h
                have h10 := congrArg (fun l => List.take 10 l) (congrArg String.data hf)
                simp only [take10_tensorflowWarning, take10_transformersWarning] at h10
                exact absurd h10 (by decide)
              · rw [if_neg hs] at h; cases h
        · rw [if_neg hn2] at h
          by_cases hn3 : name = "transformers"
          · rw [if_pos hn3] at h
            by_cases hg : (hasKey R "tensorflow" && hasKey R "torch") = true
            · exact hg
            · rw [if_neg hg] at h; cases h
          · rw [if_neg hn3] at h; cases h

/-! ## The claims -/

/-- C1.  The claim says that a registry whose numpy first record has
version spec `numpy<1.19.2` and whose tensorflow first record has version
spec `tensorflow>=2.0` makes `check_conflicts` emit both the numpy-too-old
finding and the tensorflow/numpy finding.  Evaluating the code on exactly
that input (a requirements file declaring those two lines) shows the
registry meets the claim's precondition yet rule 3 emits nothing at all:
both heuristics are gated on a successfully parsed constraint, and a
requirements-file spec string carries the package name, which the version
requirement grammar rejects, so `version_req` is always `None` here. -/
theorem claim_C1_heuristics_silent_on_requirements :
    (lookupDeps c1State.dependencies "numpy").map (fun ds => (firstDep ds).version_spec)
        = some "numpy<1.19.2"
    ∧ (lookupDeps c1State.dependencies "tensorflow").map (fun ds => (firstDep ds).version_spec)
        = some "tensorflow>=2.0"
    ∧ rule3Findings c1State.dependencies = []
    ∧ numpyWarning "numpy<1.19.2" ∉ check_conflicts c1State.dependencies
    ∧ tensorflowWarning "tensorflow>=2.0" ∉ check_conflicts c1State.dependencies := by
  decide

/-- C3.  The intra-package multi-constraint check fires exactly for
registry buckets with two or more records: the rule-1 contribution of an
entry is `none` exactly when the bucket has at most one record, and a
multi-record bucket contributes exactly one finding, which contains every
record's `(spec, source_file)` rendering as a substring. -/
theorem claim_C3_rule1_iff :
    (∀ R : Registry, rule1Findings R = R.filterMap rule1For)
    ∧ ∀ (name : String) (deps : List Dependency),
        (rule1For (name, deps) = none ↔ deps.length ≤ 1)
        ∧ (deps.length > 1 →
            rule1For (name, deps) = some (mkRule1 name deps)
            ∧ ∀ d ∈ deps, sContains (mkRule1 name deps) (versionEntry d) = true) := by
  refine ⟨fun R => rfl, fun name deps => ⟨?_, fun hl => ⟨?_, fun d hd => ?_⟩⟩⟩
  · unfold rule1For
    by_cases hl : deps.length > 1
    · rw [if_pos hl]
      simp only [reduceCtorEq, false_iff]
      omega
    · rw [if_neg hl]
      simp only [true_iff]
      omega
  · unfold rule1For
    rw [if_pos hl]
  · have h1 : (versionEntry d).data <:+: (joinSep ", " (deps.map versionEntry)).data :=
      mem_joinSep_infix _ _ _ (List.mem_map_of_mem _ hd)
    have h2 : (versionEntry d).data <:+: (mkRule1 name deps).data := by
      unfold mkRule1 mkRule1Base
      exact infix_data_append_right _ _
        (infix_data_append_left _ _ (infix_data_append_left _ _ (infix_data_append_left _ _ h1)))
    exact sContains_of_infix h2

/-- Witness for C3 at a two-record numpy bucket. -/
theorem claim_C3_witness :
    rule1For ("numpy", [rawRec "numpy" "numpy<1.19.2", rawRec "numpy" "numpy<1.21.0"])
        = some (mkRule1 "numpy" [rawRec "numpy" "numpy<1.19.2", rawRec "numpy" "numpy<1.21.0"])
    ∧ sContains
        (mkRule1 "numpy" [rawRec "numpy" "numpy<1.19.2", rawRec "numpy" "numpy<1.21.0"])
        (versionEntry (rawRec "numpy" "numpy<1.19.2")) = true := by
  have h := (claim_C3_rule1_iff.2 "numpy"
    [rawRec "numpy" "numpy<1.19.2", rawRec "numpy" "numpy<1.21.0"]).2 (by decide)
  exact ⟨h.1, h.2 _ (by decide)⟩

/-- C6.  For a multi-record bucket the rule-1 suggestion is governed by
the maximum (`highestVersion`, the fold over each spec's second token
under the delimiter split, trimmed and parsed as a strict version): if
some record yields a parseable version the finding carries the
use-at-least-that-maximum suggestion, otherwise it carries no suggestion
text at all. -/
theorem claim_C6_rule1_suggestion :
    ∀ (name : String) (deps : List Dependency), deps.length > 1 →
      (∀ v, highestVersion deps = some v →
          rule1For (name, deps) =
            some (mkRule1Base name deps ++
              ("\n      Suggestion: Use version >=" ++ versionToString v
                ++ " to satisfy all requirements")))
      ∧ (highestVersion deps = none → rule1For (name, deps) = some (mkRule1Base name deps)) := by
  intro name deps hl
  constructor
  · intro v hv
    unfold rule1For
    rw [if_pos hl]
    unfold mkRule1 rule1Suggestion
    rw [hv]
  · intro hv
    unfold rule1For
    rw [if_pos hl]
    unfold mkRule1 rule1Suggestion
    rw [hv, String.append_empty]

/-- Witness for C6: a bucket where one spec yields version 1.21.0 (the
maximum), and a bucket where no spec yields a version (a `>=` delimiter
makes the second token empty). -/
theorem claim_C6_witness :
    rule1For ("numpy", [rawRec "numpy" "numpy<1.19.2", rawRec "numpy" "numpy<1.21.0"])
        = some (mkRule1Base "numpy" [rawRec "numpy" "numpy<1.19.2", rawRec "numpy" "numpy<1.21.0"]
            ++ ("\n      Suggestion: Use version >=" ++ versionToString ⟨1, 21, 0, [], []⟩
              ++ " to satisfy all requirements"))
    ∧ rule1For ("tensorflow", [rawRec "tensorflow" "tensorflow>=2.0", rawRec "tensorflow" "tensorflow>=2.1"])
        = some (mkRule1Base "tensorflow"
            [rawRec "tensorflow" "tensorflow>=2.0", rawRec "tensorflow" "tensorflow>=2.1"]) := by
  constructor
  · exact (claim_C6_rule1_suggestion "numpy" _ (by decide)).1 ⟨1, 21, 0, [], []⟩ (by decide)
  · exact (claim_C6_rule1_suggestion "tensorflow" _ (by decide)).2 (by decide)

/-- C7.  Version normalization is exactly the substitution of `==` by
`=` and `~=` by `~` (the `>=` and `<=` substitutions in the source are
identities) before requirement parsing; and a requirement line whose
normalized spec fails to parse still yields a registry record carrying
the raw spec verbatim with no structured constraint. -/
theorem claim_C7_normalization_degrade :
    (∀ s : String,
        parse_version_spec s = reqParse (sReplace (sReplace s "==" "=") "~=" "~"))
    ∧ ∀ (path content line : String),
        line ∈ requirementLines content →
        parse_version_spec line = none →
        ∃ d, d ∈ parse_requirements path content ∧ d.version_spec = line ∧ d.version_req = none := by
  constructor
  · intro s
    unfold parse_version_spec
    rw [sReplace_self, sReplace_self]
  · intro path content line hline hfail
    exact ⟨mkDep path line, List.mem_map_of_mem _ hline, rfl, hfail⟩

/-- Witness for C7 at the unparseable line `numpy<1.19.2`. -/
theorem claim_C7_witness :
    "numpy<1.19.2" ∈ requirementLines "numpy<1.19.2\ntensorflow>=2.0"
    ∧ parse_version_spec "numpy<1.19.2" = none
    ∧ ∃ d, d ∈ parse_requirements "requirements.txt" "numpy<1.19.2\ntensorflow>=2.0"
        ∧ d.version_spec = "numpy<1.19.2" ∧ d.version_req = none := by
  refine ⟨by decide, by decide, ?_⟩
  exact claim_C7_normalization_degrade.2 "requirements.txt" "numpy<1.19.2\ntensorflow>=2.0"
    "numpy<1.19.2" (by decide) (by decide)

/-- C8.  The embedded pipeline is a pure function of the manifest-file
sequence: two runs on equal inputs produce equal registries and equal
multisets of findings. -/
theorem claim_C8_pipeline_deterministic :
    ∀ files₁ files₂ : List ManifestFile, files₁ = files₂ →
      (runPipeline files₁).1.dependencies = (runPipeline files₂).1.dependencies
      ∧ ((runPipeline files₁).2 : Multiset String) = ((runPipeline files₂).2 : Multiset String) := by
  rintro files₁ files₂ rfl
  exact ⟨rfl, rfl⟩

/-- Witness for C8 at a concrete one-file project. -/
theorem claim_C8_witness :
    (runPipeline [ManifestFile.requirementsTxt "requirements.txt" "numpy<1.19.2"]).1.dependencies
        = (runPipeline [ManifestFile.requirementsTxt "requirements.txt" "numpy<1.19.2"]).1.dependencies
    ∧ ((runPipeline [ManifestFile.requirementsTxt "requirements.txt" "numpy<1.19.2"]).2 : Multiset String)
        = ((runPipeline [ManifestFile.requirementsTxt "requirements.txt" "numpy<1.19.2"]).2 : Multiset String) :=
  claim_C8_pipeline_deterministic _ _ rfl

/-- C9.  Every rule-3 heuristic is gated on the triggering package's
first record carrying a successfully parsed structured constraint: an
entry whose first record's `version_req` is absent (or whose bucket is
empty) contributes no rule-3 finding, whatever else the registry holds. -/
theorem claim_C9_rule3_gated :
    (∀ R : Registry, rule3Findings R = R.flatMap (rule3For R))
    ∧ ∀ (R : Registry) (name : String) (deps : List Dependency),
        deps.head?.bind Dependency.version_req = none →
        rule3For R (name, deps) = [] := by
  refine ⟨fun R => rfl, fun R name deps h => ?_⟩
  cases deps with
  | nil => rfl
  | cons d rest =>
    have hv : d.version_req = none := by simpa using h
    simp [rule3For, hv]

/-- Witness for C9: the transformers entry of `c2Registry` (all three
packages present, no parsed constraint) contributes nothing. -/
theorem claim_C9_witness :
    rule3For c2Registry ("transformers", [rawRec "transformers" "transformers"]) = [] :=
  claim_C9_rule3_gated.2 c2Registry "transformers" [rawRec "transformers" "transformers"] (by decide)

theorem flatMap_congr_mem {α β : Type} {f g : α → List β} :
    ∀ l : List α, (∀ a ∈ l, f a = g a) → l.flatMap f = l.flatMap g := by
  intro l h
  induction l with
  | nil => rfl
  | cons a l ih =>
    rw [List.flatMap_cons, List.flatMap_cons, h a (List.mem_cons_self a l),
      ih (fun b hb => h b (List.mem_cons_of_mem a hb))]

theorem rule2_inner (R : Registry) (p1 s1 : String) (cs : List String) :
    cs.filterMap (fun cpkg =>
      match lookupDeps R (bareConflictName cpkg) with
      | none => none
      | some cdeps => some (mkRule2 p1 s1 cpkg (firstDep cdeps).version_spec)) =
    (cs.filter (fun c => hasKey R (bareConflictName c))).map
      (fun c => mkRule2 p1 s1 c (firstSpec R (bareConflictName c))) := by
  induction cs with
  | nil => rfl
  | cons c cs ih =>
    rw [List.filterMap_cons, List.filter_cons]
    cases hl : lookupDeps R (bareConflictName c) with
    | none =>
      have hk : hasKey R (bareConflictName c) = false := by simp [hasKey, hl]
      simp only [hk, Bool.false_eq_true, if_false, ih]
    | some cd =>
      have hk : hasKey R (bareConflictName c) = true := by simp [hasKey, hl]
      have hs : firstSpec R (bareConflictName c) = (firstDep cd).version_spec := by
        simp [firstSpec, hl]
      simp only [hk, if_true, List.map_cons, hs, ih]

/-- C5.  The known-pair check produces exactly one finding per
qualifying `(package, identifier)` pair — knowledge-base package present
as a registry key, identifier whose bare name (the part before a `<`
version qualifier) present as a registry key — each finding naming both
identifiers and quoting the first record's version spec of both sides,
and nothing else. -/
theorem claim_C5_known_pair_exact (R : Registry) :
    rule2Findings R =
      (qualifyingPairs R).map
        (fun pc => mkRule2 pc.1 (firstSpec R pc.1) pc.2 (firstSpec R (bareConflictName pc.2))) := by
  unfold rule2Findings qualifyingPairs
  rw [List.map_flatMap]
  apply flatMap_congr_mem
  intro e _
  cases hl : lookupDeps R e.1 with
  | none =>
    have hk : hasKey R e.1 = false := by simp [hasKey, hl]
    simp only [hk, Bool.false_eq_true, if_false, List.map_nil]
  | some deps =>
    have hk : hasKey R e.1 = true := by simp [hasKey, hl]
    have hs : firstSpec R e.1 = (firstDep deps).version_spec := by
      simp [firstSpec, hl]
    simp only [hk, if_true, List.map_map]
    rw [rule2_inner R e.1 (firstDep deps).version_spec e.2]
    simp only [Function.comp_def, hs]

/-- C2.  The claim said the dual-backend warning is emitted whenever all
three of transformers, tensorflow and torch are declared.  On the code
the warning is additionally gated on the transformers bucket's first
record carrying a parsed constraint; `claim_C2_counterexample` refutes
the original claim and this theorem proves the amended one: with the
gate satisfied the warning is emitted, and with only one of the two
backends present it never is. -/
theorem claim_C2_transformers_dual_backend :
    (∀ (R : Registry) (tds : List Dependency) (d : Dependency) (vr : VersionReq),
        lookupDeps R "transformers" = some tds → tds.head? = some d →
        d.version_req = some vr →
        hasKey R "tensorflow" = true → hasKey R "torch" = true →
        transformersWarning ∈ check_conflicts R)
    ∧ (∀ R : Registry, (hasKey R "tensorflow" && hasKey R "torch") = false →
        transformersWarning ∉ check_conflicts R) := by
  constructor
  · intro R tds d vr hlook hhead hreq htf hto
    have h3 : transformersWarning ∈ rule3Findings R := by
      unfold rule3Findings
      rw [List.mem_flatMap]
      refine ⟨("transformers", tds), lookupDeps_some_mem hlook, ?_⟩
      cases tds with
      | nil => cases hhead
      | cons d0 rest =>
        have hd0 : d0 = d := by simpa using hhead
        subst hd0
        simp only [rule3For, List.head?_cons, hreq]
        simp [htf, hto]
    unfold check_conflicts
    exact List.mem_append.mpr (Or.inr h3)
  · intro R hg hmem
    rcases List.mem_append.mp hmem with h12 | h3
    · rcases List.mem_append.mp h12 with h1 | h2
      · exact transformersWarning_not_rule1 R h1
      · exact transformersWarning_not_rule2 R h2
    · rw [rule3Findings, List.mem_flatMap] at h3
      obtain ⟨e, -, he⟩ := h3
      have hgate := transformersWarning_mem_rule3For he
      exact absurd hgate (by simp [hg])

/-- Counterexample for C2 as stated: `c2Registry` declares all three
packages (as bare requirement lines do), yet the warning is absent
because the transformers record has no parsed constraint. -/
theorem claim_C2_counterexample :
    hasKey c2Registry "transformers" = true
    ∧ hasKey c2Registry "tensorflow" = true
    ∧ hasKey c2Registry "torch" = true
    ∧ transformersWarning ∉ check_conflicts c2Registry := by
  decide

/-- Witness for the amended C2 at `c2Registry'`, whose transformers
record carries a parsed wildcard constraint. -/
theorem claim_C2_witness :
    transformersWarning ∈ check_conflicts c2Registry' :=
  claim_C2_transformers_dual_backend.1 c2Registry'
    [⟨"transformers", "*", some ⟨[]⟩, none, "Pipfile"⟩]
    ⟨"transformers", "*", some ⟨[]⟩, none, "Pipfile"⟩
    ⟨[]⟩ (by decide) rfl rfl (by decide) (by decide)

/-- C10.  The knowledge base lists tensorflow and torch as incompatible
in both directions, so a registry containing both packages receives two
distinct known-pair findings for the pair: one keyed on tensorflow and
one keyed on torch. -/
theorem claim_C10_two_findings (R : Registry) (tds ods : List Dependency)
    (h1 : lookupDeps R "tensorflow" = some tds)
    (h2 : lookupDeps R "torch" = some ods) :
    mkRule2 "tensorflow" (firstDep tds).version_spec "torch" (firstDep ods).version_spec
        ∈ rule2Findings R
    ∧ mkRule2 "torch" (firstDep ods).version_spec "tensorflow" (firstDep tds).version_spec
        ∈ rule2Findings R
    ∧ mkRule2 "tensorflow" (firstDep tds).version_spec "torch" (firstDep ods).version_spec
        ≠ mkRule2 "torch" (firstDep ods).version_spec "tensorflow" (firstDep tds).version_spec := by
  refine ⟨?_, ?_, ?_⟩
  · unfold rule2Findings
    rw [List.mem_flatMap]
    refine ⟨("tensorflow", ["torch", "jax"]), by decide, ?_⟩
    simp only [h1]
    rw [List.mem_filterMap]
    refine ⟨"torch", by decide, ?_⟩
    have hb : bareConflictName "torch" = "torch" := by decide
    rw [hb, h2]
  · unfold rule2Findings
    rw [List.mem_flatMap]
    refine ⟨("torch", ["tensorflow", "jax"]), by decide, ?_⟩
    simp only [h2]
    rw [List.mem_filterMap]
    refine ⟨"tensorflow", by decide, ?_⟩
    have hb : bareConflictName "tensorflow" = "tensorflow" := by decide
    rw [hb, h1]
  · have e1 : (mkRule2 "tensorflow" (firstDep tds).version_spec "torch"
        (firstDep ods).version_spec).data.take 18
        = ("Known conflict: " ++ "tensorflow" : String).data.take 18 := by
      unfold mkRule2
      rw [← String.append_assoc]
      exact take_data_append _ _ 18 (by decide)
    have e2 : (mkRule2 "torch" (firstDep ods).version_spec "tensorflow"
        (firstDep tds).version_spec).data.take 18
        = ("Known conflict: " ++ "torch" : String).data.take 18 := by
      unfold mkRule2
      rw [← String.append_assoc]
      exact take_data_append _ _ 18 (by decide)
    exact ne_of_data_take (by rw [e1, e2]; decide)

/-- Witness for C10 at `c10Registry`. -/
theorem claim_C10_witness :
    mkRule2 "tensorflow" (firstDep [rawRec "tensorflow" "tensorflow>=2.0"]).version_spec
        "torch" (firstDep [rawRec "torch" "torch"]).version_spec ∈ rule2Findings c10Registry
    ∧ mkRule2 "torch" (firstDep [rawRec "torch" "torch"]).version_spec
        "tensorflow" (firstDep [rawRec "tensorflow" "tensorflow>=2.0"]).version_spec
        ∈ rule2Findings c10Registry
    ∧ mkRule2 "tensorflow" (firstDep [rawRec "tensorflow" "tensorflow>=2.0"]).version_spec
        "torch" (firstDep [rawRec "torch" "torch"]).version_spec
        ≠ mkRule2 "torch" (firstDep [rawRec "torch" "torch"]).version_spec
        "tensorflow" (firstDep [rawRec "tensorflow" "tensorflow>=2.0"]).version_spec :=
  claim_C10_two_findings c10Registry _ _ (by decide) (by decide)

/-- C4.  An edge of the dependency graph exists exactly when its source
is a well-known package first sighted at a moment when the implied
target's node already existed (`sightingAt`); in particular edges are
never added retroactively when the target appears later, and every edge's
two endpoints are registry keys in the scanned state — this holds for the
state after scanning any record sequence, hence at every intermediate
point of a scan (every such point is the fold of a prefix). -/
theorem claim_C4_edge_invariant :
    ∀ (l : List Dependency) (s t : String),
      ((s, t) ∈ (scanFold initState l).edges ↔ sightingAt l s t)
      ∧ ((s, t) ∈ (scanFold initState l).edges →
          hasKey (scanFold initState l).dependencies s = true
          ∧ hasKey (scanFold initState l).dependencies t = true) := by
  intro l s t
  refine ⟨edges_scanFold_iff l s t, fun hmem => ?_⟩
  obtain ⟨l₁, d, l₂, rfl, hname, hnotin, htgt, hnode⟩ := (edges_scanFold_iff _ s t).mp hmem
  constructor
  · rw [hasKey_scanFold]
    right
    refine List.mem_map.mpr ⟨d, ?_, hname⟩
    exact List.mem_append.mpr (Or.inr (List.mem_cons_self _ _))
  · rw [hasKey_scanFold]
    right
    have ht1 : t ∈ l₁.map Dependency.name := by
      have hn := (nodes_scanFold l₁ initState t).mp hnode
      simpa [initState] using hn
    rw [List.map_append]
    exact List.mem_append.mpr (Or.inl ht1)

/-- Witness for C4: numpy sighted before pandas creates the
pandas → numpy edge, whose endpoints are registry keys. -/
theorem claim_C4_witness :
    ("pandas", "numpy") ∈ (scanFold initState c4List).edges
    ∧ hasKey (scanFold initState c4List).dependencies "pandas" = true
    ∧ hasKey (scanFold initState c4List).dependencies "numpy" = true := by
  have hm : ("pandas", "numpy") ∈ (scanFold initState c4List).edges := by decide
  exact ⟨hm, ((claim_C4_edge_invariant c4List "pandas" "numpy").2 hm).1,
    ((claim_C4_edge_invariant c4List "pandas" "numpy").2 hm).2⟩

end DepAnalyzer
